import Mathlib

/-!
Shallow embedding of src/getfile.cpp: a single-shot HTTP/1.1 GET client
with optional proxying via the http_proxy environment variable.

Strings from the C program (NUL-free scanf tokens, env values) are
modelled as List Char; raw socket bytes as List Nat.  Machine ints that
matter (atoi result, error codes) are Int.
-/

namespace GetFile

/-- Buffer size constant: `const int bufsz = 4096` (line 43). -/
def bufsz : Nat := 4096

/-- Size of `recv_buf` (line 46): `char recv_buf[bufsz]`. -/
def recvBufSize : Nat := bufsz

/-- Byte count requested by each recv call (line 192): `recv(s, recv_buf, bufsz - 2, 0)`. -/
def recvRequestLen : Nat := bufsz - 2

/-- The 7 characters of the literal scheme compared by `strncmp("http://", url, 7)`. -/
def httpScheme : List Char := "http://".data

/-- Lines 78-82: if the URL starts with "http://" the host pointer is advanced
past the scheme, otherwise it is the whole URL. -/
def stripScheme (url : List Char) : List Char :=
  if url.take 7 = httpScheme then url.drop 7 else url

/-- Model of `strchr` followed by splitting at the found character: returns
the part strictly before the first occurrence of ch and the part strictly
after it, or none when ch does not occur. -/
def splitAtChar (ch : Char) : List Char → Option (List Char × List Char)
  | [] => none
  | c :: cs =>
    if c = ch then some ([], cs)
    else (splitAtChar ch cs).map (fun p => (c :: p.1, p.2))

/-- Lines 77-87: parse the URL into (host, site).  `site = strchr(host, '/')`;
when found the '/' is overwritten by NUL (splitting host) and site points one
past it; when absent site points at the terminating NUL (empty path). -/
def parseUrl (url : List Char) : List Char × List Char :=
  match splitAtChar '/' (stripScheme url) with
  | some (h, s) => (h, s)
  | none => (stripScheme url, [])

/-- C `isspace` for the default locale, as consumed by `atoi`. -/
def cIsSpace (c : Char) : Bool :=
  c = ' ' || c = '\t' || c = '\n' || c = '\x0b' || c = '\x0c' || c = '\r'

/-- Value of a maximal leading run of decimal digits (0 when there is none). -/
def leadingDigitsVal (cs : List Char) : Nat :=
  (cs.takeWhile Char.isDigit).foldl (fun a c => a * 10 + (c.toNat - 48)) 0

/-- Model of C `atoi` (line 102): skip leading whitespace, consume an
optional sign, then a maximal run of decimal digits; everything after the
digits is ignored.  Modelled without machine overflow, faithful for values
in int range. -/
def atoi (cs : List Char) : Int :=
  if (cs.dropWhile cIsSpace).head? = some '-' then
    -(leadingDigitsVal (cs.dropWhile cIsSpace).tail : Int)
  else if (cs.dropWhile cIsSpace).head? = some '+' then
    (leadingDigitsVal (cs.dropWhile cIsSpace).tail : Int)
  else (leadingDigitsVal (cs.dropWhile cIsSpace) : Int)

/-- Proxy descriptor: either disabled (direct connection) or enabled with a
proxy host and port (`useProxy`, `proxyHost`, `proxyPort`, lines 93-95). -/
inductive ProxyDescriptor where
  | disabled : ProxyDescriptor
  | enabled : List Char → Int → ProxyDescriptor
deriving DecidableEq, Repr

/-- The `useProxy` flag of the descriptor. -/
def ProxyDescriptor.isEnabled : ProxyDescriptor → Bool
  | .disabled => false
  | .enabled _ _ => true

/-- Lines 92-109: inspect the http_proxy environment value.  Enabled only
when the value starts with "http://", the remainder contains a ':', and
`atoi` of the text after the first ':' is positive; otherwise disabled. -/
def resolveProxy : Option (List Char) → ProxyDescriptor
  | none => .disabled
  | some v =>
    if v.take 7 = httpScheme then
      match splitAtChar ':' (v.drop 7) with
      | none => .disabled
      | some (h, rest) =>
        if 0 < atoi rest then .enabled h (atoi rest) else .disabled
    else .disabled

/-- Lines 114-123: the effective connect target — the proxy descriptor when
enabled, else (host, 80). -/
def connectTarget (host : List Char) : ProxyDescriptor → List Char × Int
  | .enabled ph pp => (ph, pp)
  | .disabled => (host, 80)

/-- The full (untruncated) proxy-mode request text of lines 163-170. -/
def proxyRequest (host site : List Char) : List Char :=
  "GET http://".data ++ host ++ "/".data ++ site
    ++ " HTTP/1.1\r\nHost: ".data ++ host
    ++ "\r\nConnection: close\r\n\r\n".data

/-- The full (untruncated) direct-mode request text of lines 173-180. -/
def directRequest (host site : List Char) : List Char :=
  "GET /".data ++ site ++ " HTTP/1.1\r\nHost: ".data ++ host
    ++ ":80\r\nConnection: close\r\n\r\n".data

/-- `snprintf(send_buf, bufsz, ...)` writes at most bufsz - 1 characters
plus the terminating NUL: the stored string is truncated to 4095 chars. -/
def snprintfBuf (s : List Char) : List Char := s.take (bufsz - 1)

/-- Lines 161-181: the request placed in send_buf, by proxy mode. -/
def buildRequest (useProxy : Bool) (host site : List Char) : List Char :=
  if useProxy then snprintfBuf (proxyRequest host site)
  else snprintfBuf (directRequest host site)

/-- The connect target and request of one run, as computed by main from the
URL (steps 4-8). -/
structure RequestPlan where
  connectHost : List Char
  connectPort : Int
  request : List Char
deriving DecidableEq, Repr

/-- Composition of steps 4 (parse), 5 (proxy resolve), 6 (target choice)
and 10 (request build) of main. -/
def planRequest (url : List Char) (env : Option (List Char)) : RequestPlan :=
  { connectHost := (connectTarget (parseUrl url).1 (resolveProxy env)).1
    connectPort := (connectTarget (parseUrl url).1 (resolveProxy env)).2
    request := buildRequest (resolveProxy env).isEnabled (parseUrl url).1 (parseUrl url).2 }

/-- The request line: characters of the request before the first CR. -/
def requestLine (req : List Char) : List Char :=
  req.takeWhile (fun c => c ≠ '\r')

/-- One result of a `recv` call as seen by the loop at line 192: a positive
read delivering bytes, or a negative (error) result.  The end of the result
list models the zero-byte read (clean end-of-stream). -/
inductive ReadRes where
  | data : List Nat → ReadRes
  | error : ReadRes
deriving DecidableEq, Repr

/-- Outcome of the receive loop: the bytes printed to stdout, and whether
the loop ended at end-of-stream or at a negative read (fatal RecvError). -/
inductive RecvOutcome where
  | ok : List Nat → RecvOutcome
  | fatalRecv : List Nat → RecvOutcome
deriving DecidableEq, Repr

/-- Line 193-194: `recv_buf[rc] = '\0'; printf("%s", recv_buf)` prints the
chunk's bytes up to the first NUL byte (C-string semantics). -/
def printChunk (bytes : List Nat) : List Nat := bytes.takeWhile (fun b => b ≠ 0)

/-- Prefix earlier printed bytes onto a loop outcome. -/
def RecvOutcome.prepend (o : RecvOutcome) (bytes : List Nat) : RecvOutcome :=
  match o with
  | .ok p => .ok (bytes ++ p)
  | .fatalRecv p => .fatalRecv (bytes ++ p)

/-- Lines 192-198: read chunks while rc > 0, printing each via printf "%s";
a negative rc after the loop is a fatal RecvError; rc = 0 ends cleanly. -/
def recvLoop : List ReadRes → RecvOutcome
  | [] => .ok []
  | .error :: _ => .fatalRecv []
  | .data b :: rest => (recvLoop rest).prepend (printChunk b)

/-- A fatal error as reported by perr_exit: message and OS error code. -/
structure Fatal where
  msg : List Char
  code : Int
deriving DecidableEq, Repr

/-- Outcome of the transceive phase (steps 10-11). -/
inductive TransceiveResult where
  | sendFailed : Fatal → TransceiveResult
  | recvFailed : List Nat → Fatal → TransceiveResult
  | success : List Nat → TransceiveResult
deriving DecidableEq, Repr

/-- Lines 184-198: one send call; if it accepts fewer bytes than the request
length this is a fatal SendError and the receive phase is never entered;
otherwise the receive loop runs. -/
def transceive (req : List Char) (accepted : Int) (sendErr : Int)
    (stream : List ReadRes) (recvErr : Int) : TransceiveResult :=
  if accepted < (req.length : Int) then
    .sendFailed ⟨"Cannot send data".data, sendErr⟩
  else
    match recvLoop stream with
    | .ok p => .success p
    | .fatalRecv p => .recvFailed p ⟨"Error receiving data".data, recvErr⟩

/-- Format argument for the printf model. -/
inductive FmtArg where
  | str : List Char → FmtArg
  | int : Int → FmtArg

/-- Minimal printf-style formatter covering the %s and %d directives used
by perr_exit's format string. -/
def formatPrintf : List Char → List FmtArg → List Char
  | [], _ => []
  | '%' :: 's' :: rest, FmtArg.str s :: args => s ++ formatPrintf rest args
  | '%' :: 'd' :: rest, FmtArg.int i :: args => (Int.repr i).data ++ formatPrintf rest args
  | c :: rest, args => c :: formatPrintf rest args

/-- What perr_exit (lines 35-39) produces: its stdout text and the argument
it passes to exit. -/
structure ExitReport where
  output : List Char
  exitCode : Int
deriving DecidableEq, Repr

/-- Lines 35-39: `printf("ERROR: %s (code %d)\n", msg, ret_code); exit(ret_code)`. -/
def perrExit (msg : List Char) (code : Int) : ExitReport :=
  { output := formatPrintf ("ERROR: %s (code %d)\n".data) [FmtArg.str msg, FmtArg.int code]
    exitCode := code }

/-- The exit status observed by the parent process under POSIX: the low
eight bits of the value passed to exit. -/
def osExitStatus (code : Int) : Nat := (code % 256).toNat

/-- Bytes of an ASCII string, for describing socket data. -/
def bytesOf (s : List Char) : List Nat := s.map Char.toNat

/-- True when a character list does not begin with a decimal digit; used to
state where an atoi parse must stop. -/
def headNotDigit (cs : List Char) : Bool :=
  match cs with
  | [] => true
  | c :: _ => !c.isDigit

/-- Splitting succeeds exactly on the first occurrence: the pieces
reassemble the input and the left piece avoids the separator. -/
theorem splitAtChar_some_spec {ch : Char} :
    ∀ {cs a b : List Char}, splitAtChar ch cs = some (a, b) →
      cs = a ++ ch :: b ∧ ch ∉ a := by
  intro cs
  induction cs with
  | nil => intro a b h; simp [splitAtChar] at h
  | cons c cs ih =>
    intro a b h
    by_cases hc : c = ch
    · subst hc
      simp [splitAtChar] at h
      obtain ⟨rfl, rfl⟩ := h
      simp
    · unfold splitAtChar at h
      rw [if_neg hc] at h
      cases hs : splitAtChar ch cs with
      | none => rw [hs] at h; simp at h
      | some pr => ?_
      obtain ⟨a', b'⟩ := pr
      rw [hs] at h
      simp only [Option.map_some', Option.some.injEq, Prod.mk.injEq] at h
      obtain ⟨ha, hb⟩ := h
      obtain ⟨rfl, hnm⟩ := ih hs
      subst ha
      subst hb
      constructor
      · simp
      · simp only [List.mem_cons, not_or]
        exact ⟨fun hx => hc hx.symm, hnm⟩

/-- Converse: the separator's first occurrence determines the split. -/
theorem splitAtChar_append {ch : Char} :
    ∀ (a b : List Char), ch ∉ a → splitAtChar ch (a ++ ch :: b) = some (a, b) := by
  intro a
  induction a with
  | nil => intro b _; simp [splitAtChar]
  | cons c a ih =>
    intro b h
    have hc : ¬ c = ch := by
      intro hx
      exact h (by simp [hx])
    have hm : ch ∉ a := fun hx => h (by simp [hx])
    simp [splitAtChar, hc, ih b hm]

/-- When the separator never occurs, splitting fails. -/
theorem splitAtChar_none {ch : Char} :
    ∀ {cs : List Char}, ch ∉ cs → splitAtChar ch cs = none := by
  intro cs
  induction cs with
  | nil => intro _; simp [splitAtChar]
  | cons c cs ih =>
    intro h
    have hc : ¬ c = ch := by
      intro hx
      exact h (by simp [hx])
    simp [splitAtChar, hc, ih (fun hx => h (by simp [hx]))]

/-- takeWhile keeps a list all of whose elements satisfy the predicate. -/
theorem takeWhile_all {α : Type} {p : α → Bool} :
    ∀ {l : List α}, (∀ x ∈ l, p x = true) → l.takeWhile p = l := by
  intro l
  induction l with
  | nil => intro _; rfl
  | cons c cs ih =>
    intro h
    rw [List.takeWhile_cons_of_pos (h c (by simp))]
    rw [ih (fun x hx => h x (by simp [hx]))]

/-- dropWhile empties a list all of whose elements satisfy the predicate. -/
theorem dropWhile_all {α : Type} {p : α → Bool} :
    ∀ {l : List α}, (∀ x ∈ l, p x = true) → l.dropWhile p = [] := by
  intro l
  induction l with
  | nil => intro _; rfl
  | cons c cs ih =>
    intro h
    rw [List.dropWhile_cons_of_pos (h c (by simp))]
    exact ih (fun x hx => h x (by simp [hx]))

/-- Failed splitting means the separator is absent. -/
theorem splitAtChar_isNone {ch : Char} :
    ∀ {cs : List Char}, splitAtChar ch cs = none → ch ∉ cs := by
  intro cs
  induction cs with
  | nil => intro _; simp
  | cons c cs ih =>
    intro h
    by_cases hc : c = ch
    · simp [splitAtChar, hc] at h
    · unfold splitAtChar at h
      rw [if_neg hc] at h
      rw [Option.map_eq_none'] at h
      simp only [List.mem_cons, not_or]
      exact ⟨fun hx => hc hx.symm, ih h⟩

/-- C4: the URL parser strips an optional leading "http://" prefix and
splits the remainder at the first '/': everything before it is the host,
everything after it is the path; when no '/' occurs the host is the whole
remainder and the path is empty.  In particular "http://host/path" parses
to host "host" and path "path". -/
theorem url_parser_spec :
    (∀ url : List Char,
      stripScheme url = (if url.take 7 = "http://".data then url.drop 7 else url) ∧
      parseUrl url =
        ((stripScheme url).takeWhile (fun c => c ≠ '/'),
         ((stripScheme url).dropWhile (fun c => c ≠ '/')).tail)) ∧
    parseUrl ("http://host/path".data) = ("host".data, "path".data) := by
  constructor
  · intro url
    refine ⟨rfl, ?_⟩
    unfold parseUrl
    cases hsp : splitAtChar '/' (stripScheme url) with
    | none =>
      have hmem : '/' ∉ stripScheme url := splitAtChar_isNone hsp
      have hall : ∀ x ∈ stripScheme url, (fun c => decide (c ≠ '/')) x = true := by
        intro x hx
        simp only [decide_eq_true_eq]
        intro hx2
        exact hmem (hx2 ▸ hx)
      rw [takeWhile_all hall, dropWhile_all hall]
      rfl
    | some pr =>
      obtain ⟨a, b⟩ := pr
      obtain ⟨heq, hnm⟩ := splitAtChar_some_spec hsp
      have hall : ∀ x ∈ a, (fun c => decide (c ≠ '/')) x = true := by
        intro x hx
        simp only [decide_eq_true_eq]
        intro hx2
        exact hnm (hx2 ▸ hx)
      rw [heq]
      rw [List.takeWhile_append_of_pos hall, List.dropWhile_append_of_pos hall]
      simp
  · decide

/-- Resolver equation: scheme present and a colon found. -/
theorem resolveProxy_some_split (v h0 rest : List Char)
    (ht : v.take 7 = httpScheme) (hsp : splitAtChar ':' (v.drop 7) = some (h0, rest)) :
    resolveProxy (some v) =
      if 0 < atoi rest then ProxyDescriptor.enabled h0 (atoi rest)
      else ProxyDescriptor.disabled := by
  simp only [resolveProxy]
  rw [if_pos ht, hsp]

/-- Resolver equation: scheme present but no colon after it. -/
theorem resolveProxy_some_noColon (v : List Char)
    (ht : v.take 7 = httpScheme) (hsp : splitAtChar ':' (v.drop 7) = none) :
    resolveProxy (some v) = ProxyDescriptor.disabled := by
  simp only [resolveProxy]
  rw [if_pos ht, hsp]

/-- Resolver equation: value does not start with the scheme. -/
theorem resolveProxy_some_noScheme (v : List Char) (ht : ¬ v.take 7 = httpScheme) :
    resolveProxy (some v) = ProxyDescriptor.disabled := by
  simp only [resolveProxy]
  rw [if_neg ht]

/-- C3: the proxy resolver yields enabled(host, port) exactly when the
value starts with "http://", has a ':' after the scheme, and the text after
the first ':' atoi-parses to a positive port; every other value (absent,
missing scheme, missing colon, non-positive or non-numeric port) yields
disabled, which is never fatal: the run falls back to dialing the origin
host on port 80. -/
theorem proxy_resolver_characterization (env : Option (List Char)) :
    (∀ h p, resolveProxy env = ProxyDescriptor.enabled h p ↔
      ∃ v post, env = some v ∧ v.take 7 = httpScheme ∧
        v.drop 7 = h ++ ':' :: post ∧ ':' ∉ h ∧ atoi post = p ∧ 0 < p) ∧
    (∀ host, (resolveProxy env).isEnabled = false →
      resolveProxy env = ProxyDescriptor.disabled ∧
      connectTarget host (resolveProxy env) = (host, 80)) := by
  constructor
  · intro h p
    constructor
    · intro he
      cases env with
      | none => simp [resolveProxy] at he
      | some v =>
        by_cases ht : v.take 7 = httpScheme
        · cases hsp : splitAtChar ':' (v.drop 7) with
          | none => rw [resolveProxy_some_noColon v ht hsp] at he; simp at he
          | some pr => ?_
          obtain ⟨h0, rest⟩ := pr
          rw [resolveProxy_some_split v h0 rest ht hsp] at he
          by_cases hpos : 0 < atoi rest
          · rw [if_pos hpos] at he
            obtain ⟨rfl, rfl⟩ := by
              simpa [ProxyDescriptor.enabled.injEq] using he
            obtain ⟨hdec, hnm⟩ := splitAtChar_some_spec hsp
            exact ⟨v, rest, rfl, ht, hdec, hnm, rfl, hpos⟩
          · rw [if_neg hpos] at he
            simp at he
        · rw [resolveProxy_some_noScheme v ht] at he
          simp at he
    · rintro ⟨v, post, rfl, ht, hdrop, hnm, rfl, hpos⟩
      have hsp : splitAtChar ':' (v.drop 7) = some (h, post) := by
        rw [hdrop]
        exact splitAtChar_append h post hnm
      rw [resolveProxy_some_split v h post ht hsp, if_pos hpos]
  · intro host hdis
    cases he : resolveProxy env with
    | disabled => exact ⟨rfl, rfl⟩
    | enabled ph pp =>
      rw [he] at hdis
      simp [ProxyDescriptor.isEnabled] at hdis

/-- Witness for C3 at the spec's example value "http://proxy.example:8080". -/
theorem proxy_resolver_characterization_w :
    resolveProxy (some ("http://proxy.example:8080".data)) =
      ProxyDescriptor.enabled ("proxy.example".data) 8080 :=
  ((proxy_resolver_characterization (some ("http://proxy.example:8080".data))).1
      ("proxy.example".data) 8080).mpr
    ⟨"http://proxy.example:8080".data, "8080".data, rfl, by decide, by decide,
      by decide, by decide, by decide⟩

/-- C-locale whitespace characters are not digits. -/
theorem space_not_digit {c : Char} (h : cIsSpace c = true) : c.isDigit = false := by
  unfold cIsSpace at h
  simp only [Bool.or_eq_true, decide_eq_true_eq] at h
  rcases h with ((((h | h) | h) | h) | h) | h <;> subst h <;> decide

/-- A digit character is not C-locale whitespace. -/
theorem digit_not_space {c : Char} (h : c.isDigit = true) : cIsSpace c = false := by
  cases hcs : cIsSpace c
  · rfl
  · rw [space_not_digit hcs] at h
    cases h

/-- atoi of a nonempty leading digit run followed by a non-digit suffix is
the value of the digit run; the suffix is ignored. -/
theorem atoi_digits_leading (ds rest : List Char) (hne : ds ≠ [])
    (hdig : ∀ c ∈ ds, c.isDigit = true) (hrest : headNotDigit rest = true) :
    atoi (ds ++ rest) = (leadingDigitsVal ds : Int) := by
  obtain ⟨d, ds', rfl⟩ := List.exists_cons_of_ne_nil hne
  have hd : d.isDigit = true := hdig d (by simp)
  have hds : cIsSpace d = false := digit_not_space hd
  have hdm : ¬ d = '-' := by rintro rfl; simp [Char.isDigit] at hd
  have hdp : ¬ d = '+' := by rintro rfl; simp [Char.isDigit] at hd
  have hdw : ((d :: ds') ++ rest).dropWhile cIsSpace = d :: (ds' ++ rest) := by
    rw [List.cons_append]
    exact List.dropWhile_cons_of_neg (by simp [hds])
  have htw : (d :: (ds' ++ rest)).takeWhile Char.isDigit = d :: ds' := by
    rw [show d :: (ds' ++ rest) = (d :: ds') ++ rest by simp]
    rw [List.takeWhile_append_of_pos hdig]
    cases rest with
    | nil => simp
    | cons r rs =>
      rw [List.takeWhile_cons_of_neg ?_]
      · simp
      · simp only [headNotDigit, Bool.not_eq_true'] at hrest
        simp [hrest]
  unfold atoi
  rw [hdw]
  rw [List.head?_cons, if_neg (by simp [hdm]), if_neg (by simp [hdp])]
  unfold leadingDigitsVal
  rw [htw, takeWhile_all hdig]

/-- C10: an http_proxy value "http://H:R" where H is colon-free and R
starts with a nonempty digit run of positive value enables proxying with
that leading value as the port, even when R carries trailing non-numeric
characters: the port text is not required to be entirely numeric. -/
theorem proxy_port_ignores_trailing (h ds rest : List Char)
    (hnm : ':' ∉ h) (hne : ds ≠ []) (hdig : ∀ c ∈ ds, c.isDigit = true)
    (hrest : headNotDigit rest = true) (hpos : 0 < leadingDigitsVal ds) :
    resolveProxy (some ("http://".data ++ (h ++ ':' :: (ds ++ rest)))) =
      ProxyDescriptor.enabled h (leadingDigitsVal ds) := by
  have ht : ("http://".data ++ (h ++ ':' :: (ds ++ rest))).take 7 = httpScheme := by
    rw [List.take_append_of_le_length (by decide)]
    decide
  have hd7 : ("http://".data ++ (h ++ ':' :: (ds ++ rest))).drop 7 = h ++ ':' :: (ds ++ rest) :=
    List.drop_left' rfl
  have hsp : splitAtChar ':' (("http://".data ++ (h ++ ':' :: (ds ++ rest))).drop 7) =
      some (h, ds ++ rest) := by
    rw [hd7]
    exact splitAtChar_append h (ds ++ rest) hnm
  rw [resolveProxy_some_split _ h (ds ++ rest) ht hsp]
  rw [atoi_digits_leading ds rest hne hdig hrest]
  rw [if_pos (by exact_mod_cast hpos)]

/-- Witness for C10: "http://h:8080/extra" enables proxy "h" port 8080. -/
theorem proxy_port_ignores_trailing_w :
    resolveProxy (some ("http://".data ++ ("h".data ++ ':' :: ("8080".data ++ "/extra".data)))) =
      ProxyDescriptor.enabled ("h".data) 8080 :=
  proxy_port_ignores_trailing ("h".data) ("8080".data) ("/extra".data)
    (by decide) (by decide) (by decide) (by decide) (by decide)

/-- Stripping the scheme never lengthens the URL. -/
theorem stripScheme_length (url : List Char) : (stripScheme url).length ≤ url.length := by
  unfold stripScheme
  split
  · simp [List.length_drop]
  · exact le_rfl

/-- Host and site lengths together are bounded by the URL length. -/
theorem parseUrl_length (url : List Char) :
    (parseUrl url).1.length + (parseUrl url).2.length ≤ url.length := by
  have hs := stripScheme_length url
  unfold parseUrl
  cases hsp : splitAtChar '/' (stripScheme url) with
  | none => simpa using hs
  | some pr => ?_
  obtain ⟨a, b⟩ := pr
  have heq := (splitAtChar_some_spec hsp).1
  have hlen : a.length + (b.length + 1) = (stripScheme url).length := by
    rw [heq]
    simp
  simp only []
  omega

/-- Length of the untruncated proxy-mode request. -/
theorem proxyRequest_length (h s : List Char) :
    (proxyRequest h s).length = 52 + (2 * h.length + s.length) := by
  have e1 : ("GET http://".data).length = 11 := rfl
  have e2 : ("/".data).length = 1 := rfl
  have e3 : (" HTTP/1.1\r\nHost: ".data).length = 17 := rfl
  have e4 : ("\r\nConnection: close\r\n\r\n".data).length = 23 := rfl
  simp [proxyRequest, List.length_append, e1, e2, e3, e4]
  omega

/-- Length of the untruncated direct-mode request. -/
theorem directRequest_length (h s : List Char) :
    (directRequest h s).length = 48 + (h.length + s.length) := by
  have e1 : ("GET /".data).length = 5 := rfl
  have e2 : (" HTTP/1.1\r\nHost: ".data).length = 17 := rfl
  have e3 : (":80\r\nConnection: close\r\n\r\n".data).length = 26 := rfl
  simp [directRequest, List.length_append, e1, e2, e3]
  omega

/-- C1: with proxying enabled as (proxyHost, proxyPort), the run dials the
proxy and sends exactly the absolute-form request
"GET http://{host}/{path} HTTP/1.1\r\nHost: {host}\r\nConnection: close\r\n\r\n"
with host and path from the user URL — the Host header names the origin
host, never the proxy host.  The URL is bounded by scanf's %1023s limit,
which keeps the request inside the 4096-byte snprintf buffer. -/
theorem proxy_mode_run (url env ph : List Char) (pp : Int)
    (hlen : url.length ≤ 1023)
    (hp : resolveProxy (some env) = ProxyDescriptor.enabled ph pp) :
    planRequest url (some env) =
      { connectHost := ph
        connectPort := pp
        request := "GET http://".data ++ (parseUrl url).1 ++ "/".data ++ (parseUrl url).2
          ++ " HTTP/1.1\r\nHost: ".data ++ (parseUrl url).1
          ++ "\r\nConnection: close\r\n\r\n".data } := by
  have hl := parseUrl_length url
  unfold planRequest
  rw [hp]
  simp only [connectTarget, ProxyDescriptor.isEnabled, buildRequest, if_true]
  unfold snprintfBuf
  rw [List.take_of_length_le ?hb]
  · exact rfl
  case hb =>
    rw [proxyRequest_length]
    show 52 + (2 * (parseUrl url).1.length + (parseUrl url).2.length) ≤ bufsz - 1
    unfold bufsz
    omega

/-- Witness for C1 at a concrete URL and proxy value. -/
theorem proxy_mode_run_w :
    planRequest ("http://example.com/index.html".data)
        (some ("http://proxy.example:8080".data)) =
      { connectHost := "proxy.example".data
        connectPort := 8080
        request := "GET http://".data ++ (parseUrl ("http://example.com/index.html".data)).1
          ++ "/".data ++ (parseUrl ("http://example.com/index.html".data)).2
          ++ " HTTP/1.1\r\nHost: ".data ++ (parseUrl ("http://example.com/index.html".data)).1
          ++ "\r\nConnection: close\r\n\r\n".data } :=
  proxy_mode_run ("http://example.com/index.html".data) ("http://proxy.example:8080".data)
    ("proxy.example".data) 8080 (by decide) (by decide)

/-- C2: with proxying disabled, the run dials (origin-host, 80) and sends
exactly the origin-form request
"GET /{path} HTTP/1.1\r\nHost: {host}:80\r\nConnection: close\r\n\r\n". -/
theorem direct_mode_run (url : List Char) (env : Option (List Char))
    (hlen : url.length ≤ 1023)
    (hp : resolveProxy env = ProxyDescriptor.disabled) :
    planRequest url env =
      { connectHost := (parseUrl url).1
        connectPort := 80
        request := "GET /".data ++ (parseUrl url).2
          ++ " HTTP/1.1\r\nHost: ".data ++ (parseUrl url).1
          ++ ":80\r\nConnection: close\r\n\r\n".data } := by
  have hl := parseUrl_length url
  unfold planRequest
  rw [hp]
  simp only [connectTarget, ProxyDescriptor.isEnabled, buildRequest, if_false, Bool.false_eq_true]
  unfold snprintfBuf
  rw [List.take_of_length_le ?hb]
  · exact rfl
  case hb =>
    rw [directRequest_length]
    show 48 + ((parseUrl url).1.length + (parseUrl url).2.length) ≤ bufsz - 1
    unfold bufsz
    omega

/-- Witness for C2 at a concrete URL with no http_proxy value. -/
theorem direct_mode_run_w :
    planRequest ("http://example.com/index.html".data) none =
      { connectHost := (parseUrl ("http://example.com/index.html".data)).1
        connectPort := 80
        request := "GET /".data ++ (parseUrl ("http://example.com/index.html".data)).2
          ++ " HTTP/1.1\r\nHost: ".data ++ (parseUrl ("http://example.com/index.html".data)).1
          ++ ":80\r\nConnection: close\r\n\r\n".data } :=
  direct_mode_run ("http://example.com/index.html".data) none (by decide) rfl

/-- takeWhile applied after a truncating take still stops at the first
failing element when that element lies inside the truncation window. -/
theorem takeWhile_take_of_stop {α : Type} (p : α → Bool) :
    ∀ (a : List α) (c : α) (b : List α) (n : Nat),
      (∀ x ∈ a, p x = true) → p c = false → a.length < n →
      ((a ++ c :: b).take n).takeWhile p = a := by
  intro a
  induction a with
  | nil =>
    intro c b n _ hc hn
    cases n with
    | zero => cases hn
    | succ m =>
      rw [List.nil_append, List.take_succ_cons]
      exact List.takeWhile_cons_of_neg (by simp [hc])
  | cons x a ih =>
    intro c b n hall hc hn
    cases n with
    | zero => cases hn
    | succ m =>
      rw [List.cons_append, List.take_succ_cons]
      rw [List.takeWhile_cons_of_pos (hall x (by simp))]
      rw [ih c b m (fun y hy => hall y (by simp [hy])) hc (by simpa using hn)]

/-- C5: when the URL has no path separator after the optionally stripped
scheme, or its remainder ends in a single trailing '/', the parsed path is
empty and the direct-mode request line renders as exactly "GET / HTTP/1.1"
— neither "GET  HTTP/1.1" nor "GET // HTTP/1.1". -/
theorem empty_path_request_line (url : List Char)
    (h : '/' ∉ stripScheme url ∨ ∃ pre, stripScheme url = pre ++ ['/'] ∧ '/' ∉ pre) :
    (parseUrl url).2 = [] ∧
    requestLine (buildRequest false (parseUrl url).1 (parseUrl url).2) =
      "GET / HTTP/1.1".data := by
  have hsite : (parseUrl url).2 = [] := by
    rcases h with hno | ⟨pre, heq, hnm⟩
    · unfold parseUrl
      rw [splitAtChar_none hno]
    · unfold parseUrl
      rw [heq, splitAtChar_append pre [] hnm]
  refine ⟨hsite, ?_⟩
  rw [hsite]
  show requestLine ((directRequest (parseUrl url).1 []).take (bufsz - 1)) = _
  have hD : directRequest (parseUrl url).1 [] =
      "GET / HTTP/1.1".data ++ '\r' ::
        ("\nHost: ".data ++ ((parseUrl url).1 ++ ":80\r\nConnection: close\r\n\r\n".data)) := rfl
  rw [hD]
  unfold requestLine
  exact takeWhile_take_of_stop (fun c => c ≠ '\r') ("GET / HTTP/1.1".data) '\r' _ (bufsz - 1)
    (by decide) (by decide) (by decide)

/-- Witness for C5 at the separator-free URL "http://x". -/
theorem empty_path_request_line_w :
    (parseUrl ("http://x".data)).2 = [] ∧
    requestLine (buildRequest false (parseUrl ("http://x".data)).1
      (parseUrl ("http://x".data)).2) = "GET / HTTP/1.1".data :=
  empty_path_request_line ("http://x".data) (Or.inl (by decide))

/-- C6 counterexample: a delivered chunk containing a NUL byte (here
"H\0i", bytes 72 0 105) is not printed verbatim — printf "%s" stops at the
NUL, so only byte 72 reaches stdout. -/
theorem recv_print_not_verbatim :
    recvLoop [ReadRes.data [72, 0, 105]] = RecvOutcome.ok [72] ∧
    recvLoop [ReadRes.data [72, 0, 105]] ≠ RecvOutcome.ok [72, 0, 105] := by
  constructor
  · rfl
  · decide

/-- C6 amended: the loop prints each chunk's bytes up to the chunk's first
NUL byte (so NUL-free chunks are printed verbatim), terminates cleanly
exactly at the zero-byte read, and a negative read is fatal with nothing
from any later read printed. -/
theorem recv_loop_spec (chunks : List (List Nat)) (rest : List ReadRes) :
    (recvLoop (chunks.map ReadRes.data) =
        RecvOutcome.ok (chunks.map printChunk).flatten ∧
      recvLoop (chunks.map ReadRes.data ++ ReadRes.error :: rest) =
        RecvOutcome.fatalRecv (chunks.map printChunk).flatten) ∧
    ((∀ b ∈ chunks.flatten, b ≠ 0) →
      recvLoop (chunks.map ReadRes.data) = RecvOutcome.ok chunks.flatten) := by
  have hmain : ∀ cs : List (List Nat),
      recvLoop (cs.map ReadRes.data) = RecvOutcome.ok (cs.map printChunk).flatten ∧
      recvLoop (cs.map ReadRes.data ++ ReadRes.error :: rest) =
        RecvOutcome.fatalRecv (cs.map printChunk).flatten := by
    intro cs
    induction cs with
    | nil => exact ⟨rfl, rfl⟩
    | cons b bs ih =>
      constructor
      · show (recvLoop (bs.map ReadRes.data)).prepend (printChunk b) = _
        rw [ih.1]
        rfl
      · show (recvLoop (bs.map ReadRes.data ++ ReadRes.error :: rest)).prepend
            (printChunk b) = _
        rw [ih.2]
        rfl
  refine ⟨hmain chunks, ?_⟩
  intro hnz
  rw [(hmain chunks).1]
  have hch : chunks.map printChunk = chunks := by
    clear hmain
    induction chunks with
    | nil => rfl
    | cons b bs ih =>
      have hb : printChunk b = b :=
        takeWhile_all (fun x hx => by
          simp only [decide_eq_true_eq]
          exact hnz x (by simp [hx]))
      rw [List.map_cons, hb, ih (fun x hx => hnz x (by simp [hx]))]
  rw [hch]

/-- Witness for C6 at the spec's mock stream "HTTP/1.1 200 OK\r\n\r\nhello"
followed by end-of-stream: printed verbatim, loop ends without error. -/
theorem recv_loop_spec_w :
    recvLoop ([bytesOf ("HTTP/1.1 200 OK\r\n\r\nhello".data)].map ReadRes.data) =
      RecvOutcome.ok ([bytesOf ("HTTP/1.1 200 OK\r\n\r\nhello".data)].flatten) :=
  (recv_loop_spec [bytesOf ("HTTP/1.1 200 OK\r\n\r\nhello".data)] []).2 (by decide)

/-- C7: the request goes out in one send call; a result accepting fewer
bytes than the request length is a fatal SendError carrying the OS error
code, and the receive phase runs only when the whole request was accepted. -/
theorem send_all_or_fatal (req : List Char) (accepted sendErr recvErr : Int)
    (stream : List ReadRes) :
    (accepted < (req.length : Int) →
      transceive req accepted sendErr stream recvErr =
        TransceiveResult.sendFailed ⟨"Cannot send data".data, sendErr⟩) ∧
    ((req.length : Int) ≤ accepted →
      transceive req accepted sendErr stream recvErr =
        (match recvLoop stream with
          | RecvOutcome.ok p => TransceiveResult.success p
          | RecvOutcome.fatalRecv p =>
            TransceiveResult.recvFailed p ⟨"Error receiving data".data, recvErr⟩)) := by
  constructor
  · intro hlt
    unfold transceive
    rw [if_pos hlt]
  · intro hge
    unfold transceive
    rw [if_neg (not_lt.mpr hge)]

/-- Witness for C7: a 2-byte request with only 1 byte accepted fails as a
SendError with the OS code, before any receiving. -/
theorem send_all_or_fatal_w :
    transceive ("AB".data) 1 32 [ReadRes.data [104]] 0 =
      TransceiveResult.sendFailed ⟨"Cannot send data".data, 32⟩ :=
  (send_all_or_fatal ("AB".data) 1 32 0 [ReadRes.data [104]]).1 (by decide)

/-- C8 counterexample: perr_exit performs no substitution for non-positive
codes — underlying code 0 exits with status 0 (the success status, not a
failure code), and -1 and -2 give distinct observed statuses (255 and 254),
so no fixed failure code is substituted. -/
theorem perr_exit_no_substitution :
    (perrExit ("Cannot resolve connectTo".data) 0).exitCode = 0 ∧
    osExitStatus ((perrExit ("Cannot resolve connectTo".data) 0).exitCode) = 0 ∧
    osExitStatus ((perrExit ("m".data) (-1)).exitCode) ≠
      osExitStatus ((perrExit ("m".data) (-2)).exitCode) := by
  refine ⟨rfl, rfl, by decide⟩

/-- C8 amended: every fatal error prints "ERROR: {message} (code {code})"
with the underlying OS error code and exits with that code unchanged; the
OS reports the low 8 bits, so a positive code below 256 is the observed
exit status verbatim, while non-positive codes pass through without any
fixed-failure-code substitution. -/
theorem perr_exit_reports_and_exits (msg : List Char) (code : Int) :
    (perrExit msg code).output =
      "ERROR: ".data ++ (msg ++ (" (code ".data ++ ((Int.repr code).data ++ (")".data ++ "\n".data)))) ∧
    (perrExit msg code).exitCode = code ∧
    (0 < code → code < 256 → osExitStatus ((perrExit msg code).exitCode) = code.toNat) := by
  refine ⟨rfl, rfl, ?_⟩
  intro h1 h2
  show (code % 256).toNat = code.toNat
  omega

/-- Witness for C8 at the errno value 111 (ECONNREFUSED). -/
theorem perr_exit_reports_and_exits_w :
    (perrExit ("Cannot connect".data) 111).exitCode = 111 ∧
    osExitStatus ((perrExit ("Cannot connect".data) 111).exitCode) = 111 :=
  ⟨(perr_exit_reports_and_exits ("Cannot connect".data) 111).2.1,
    (perr_exit_reports_and_exits ("Cannot connect".data) 111).2.2 (by decide) (by decide)⟩

/-- C9: each recv call requests at most recvRequestLen = bufsz - 2 = 4094
bytes, so any successful read count rc satisfies rc ≤ 4094 and the
NUL-terminator write at recv_buf[rc] stays strictly inside the 4096-byte
buffer — the receive loop never writes outside recv_buf. -/
theorem recv_terminator_in_bounds (rc : Nat) (h : rc ≤ recvRequestLen) :
    rc < recvBufSize ∧ recvRequestLen = 4094 ∧ recvBufSize = 4096 := by
  refine ⟨?_, rfl, rfl⟩
  have h2 : recvRequestLen = 4094 := rfl
  have h3 : recvBufSize = 4096 := rfl
  omega

/-- Witness for C9 at the largest possible read count 4094. -/
theorem recv_terminator_in_bounds_w :
    4094 ≤ recvRequestLen ∧ 4094 < recvBufSize :=
  ⟨by decide, (recv_terminator_in_bounds 4094 (by decide)).1⟩

end GetFile
